import Mathlib

/-!
Shallow embedding of `get_full_test_cases_from_api.py` (MagicPod help-center
sample).  Strings are modelled as `List Char`; Python's line and whitespace
conventions (`str.splitlines`, `str.strip`, `textwrap.indent`) are embedded
explicitly.  The possibly non-terminating recursions (shared-step expansion,
pagination `while True` loops) take an explicit fuel argument; fuel
exhaustion models divergence of the original code by returning the neutral
value, and every theorem quantifies over (or instantiates) the fuel.
-/

namespace MagicPod

/-- The characters Python's `str.splitlines` treats as line boundaries
(`\n`, `\r`, `\v`, `\f`, FS, GS, RS, NEL, LINE SEPARATOR, PARAGRAPH
SEPARATOR; the pair `\r\n` is a single boundary). -/
def isLineBoundary (c : Char) : Bool :=
  c = '\n' || c = '\r' || c = Char.ofNat 0x0b || c = Char.ofNat 0x0c ||
  c = Char.ofNat 0x1c || c = Char.ofNat 0x1d || c = Char.ofNat 0x1e ||
  c = Char.ofNat 0x85 || c = Char.ofNat 0x2028 || c = Char.ofNat 0x2029

/-- The characters Python's `str.strip()` / `str.lstrip()` remove
(Unicode whitespace, as reported by `str.isspace`). -/
def isPySpace (c : Char) : Bool :=
  c = ' ' || c = '\t' || c = '\n' || c = '\r' || c = Char.ofNat 0x0b ||
  c = Char.ofNat 0x0c || c = Char.ofNat 0x1c || c = Char.ofNat 0x1d ||
  c = Char.ofNat 0x1e || c = Char.ofNat 0x1f || c = Char.ofNat 0x85 ||
  c = Char.ofNat 0xa0 || c = Char.ofNat 0x1680 ||
  (0x2000 ≤ c.toNat && c.toNat ≤ 0x200a) || c = Char.ofNat 0x202f ||
  c = Char.ofNat 0x205f || c = Char.ofNat 0x3000

/-- Embeds Python `str.lstrip()`. -/
def pyLstrip (t : List Char) : List Char := t.dropWhile isPySpace

/-- Embeds Python `str.rstrip()`. -/
def pyRstrip (t : List Char) : List Char := (t.reverse.dropWhile isPySpace).reverse

/-- Embeds Python `str.strip()`. -/
def pyStrip (t : List Char) : List Char := pyRstrip (pyLstrip t)

/-- Worker for `str.splitlines()` (keepends = False): `acc` holds the
current line, reversed. -/
def splitlinesAux : List Char → List Char → List (List Char)
  | [], acc => if acc.isEmpty then [] else [acc.reverse]
  | '\r' :: '\n' :: rest, acc => acc.reverse :: splitlinesAux rest []
  | c :: rest, acc =>
    if isLineBoundary c then acc.reverse :: splitlinesAux rest []
    else splitlinesAux rest (c :: acc)

/-- Embeds Python `str.splitlines()` (without keepends). -/
def pySplitlines (t : List Char) : List (List Char) := splitlinesAux t []

/-- Worker for `str.splitlines(keepends=True)`. -/
def splitlinesKeependsAux : List Char → List Char → List (List Char)
  | [], acc => if acc.isEmpty then [] else [acc.reverse]
  | '\r' :: '\n' :: rest, acc =>
    (acc.reverse ++ ['\r', '\n']) :: splitlinesKeependsAux rest []
  | c :: rest, acc =>
    if isLineBoundary c then (acc.reverse ++ [c]) :: splitlinesKeependsAux rest []
    else splitlinesKeependsAux rest (c :: acc)

/-- Embeds Python `str.splitlines(keepends=True)`. -/
def pySplitlinesKeepends (t : List Char) : List (List Char) :=
  splitlinesKeependsAux t []

/-- Embeds `textwrap.indent(text, pfx)` with its default predicate
`line.strip()`: each line (keepends) that contains a non-whitespace
character is prefixed with `pfx`; whitespace-only lines are kept as-is. -/
def textwrapIndent (text : List Char) (pfx : List Char) : List Char :=
  ((pySplitlinesKeepends text).map (fun line =>
    if pyStrip line = [] then line else pfx ++ line)).flatten

/-- The two localized marker strings from `extract_shared_step_name`:
`prefixes = ["Shared step:", "共有ステップ:"]`. -/
def sharedStepMarkers : List (List Char) :=
  ["Shared step:".toList, "共有ステップ:".toList]

/-- Embeds `extract_shared_step_name(step)`: strip the line; the first
marker the stripped line starts with is removed once (`s.replace(p, "", 1)`
removes the leftmost occurrence, which is the leading one here); otherwise
return the empty string. -/
def extract_shared_step_name (step : List Char) : List Char :=
  let s := pyStrip step
  match sharedStepMarkers.find? (fun p => p.isPrefixOf s) with
  | some p => s.drop p.length
  | none => []

/-- Whether `re.search(r"\(.*\)$", body)` matches within `body`, assuming
`$` has to match at `body`'s very end (the caller handles a trailing
newline).  Since `.` does not match `\n` and `.*` is unrestricted
otherwise, a match exists iff the last character is `)` and some `(`
occurs in the newline-free suffix before it. -/
def parenEndMatch (body : List Char) : Bool :=
  (body.getLast? == some ')') &&
  ((body.dropLast.reverse.takeWhile (fun d => d != '\n')).contains '(')

/-- Embeds `re.search(r"\(.*\)$", t) is not None`: in a non-MULTILINE
pattern `$` matches at the end of the string or just before one final
newline (and the end-of-string position is unusable when the text ends
with `\n`, since `\)` cannot match that newline). -/
def pyRegexSearchParenEnd (t : List Char) : Bool :=
  parenEndMatch (if t.getLast? == some '\n' then t.dropLast else t)

/-- Removes the (single, leftmost, greedy) match of `\(.*\)$` from `body`:
everything from the first `(` of the newline-free suffix through the final
`)` is deleted.  If there is no match, `body` is returned unchanged. -/
def removeParenEnd (body : List Char) : List Char :=
  if parenEndMatch body then
    let inner := body.dropLast
    let revTail := inner.reverse.takeWhile (fun d => d != '\n')
    inner.take (inner.length - revTail.length) ++
      revTail.reverse.takeWhile (fun d => d != '(')
  else body

/-- Embeds `re.sub(r"\(.*\)$", "", t)`. -/
def pyRegexSubParenEnd (t : List Char) : List Char :=
  if t.getLast? == some '\n' then removeParenEnd t.dropLast ++ ['\n']
  else removeParenEnd t

/-- Worker for `shared_step_name_candidate_iterator`: first yield
`current_text.strip()`, then while the regex matches, substitute and yield
again.  Each substitution removes at least the matched `(` and `)`, so
`t.length` steps of fuel always suffice to run the loop to completion. -/
def candidateAux : Nat → List Char → List (List Char)
  | 0, t => [pyStrip t]
  | fuel + 1, t =>
    pyStrip t ::
      (if pyRegexSearchParenEnd t then candidateAux fuel (pyRegexSubParenEnd t)
       else [])

/-- Embeds `shared_step_name_candidate_iterator(shared_step_name)`,
materialized as the list of all yielded candidates. -/
def shared_step_name_candidate_iterator (sharedStepName : List Char) :
    List (List Char) :=
  candidateAux sharedStepName.length sharedStepName

/-- A full shared-step record: the fields of the API record that the
program reads (`name` and `human_readable_steps`). -/
structure SharedStepRec where
  name : List Char
  human_readable_steps : List Char
deriving DecidableEq

/-- The `shared_step_name_map` dictionary: a partial map from names to
shared-step records. -/
def Table : Type := List Char → Option SharedStepRec

/-- The candidate loop of `expand_shared_step`: the first candidate that
is a key of the map (`candidate not in map: continue`) selects its
record. -/
def resolveCandidates : List (List Char) → Table → Option SharedStepRec
  | [], _ => none
  | c :: rest, map =>
    match map c with
    | some ss => some ss
    | none => resolveCandidates rest map

/-- Embeds `expand_shared_step(shared_step_name, map, indent)`: resolve
through the candidate iterator; on success, expand the found record's
steps with the (recursive) `expander` and indent the result with `indent`
spaces via `textwrap.indent`; on failure return the empty string.  The
mutual recursion of the source is untied here by passing the expansion
function explicitly; the caller supplies one fuel level less of itself. -/
def expand_shared_step (expander : List Char → Table → List Char)
    (sharedStepName : List Char) (map : Table) (indent : Nat) : List Char :=
  match resolveCandidates (shared_step_name_candidate_iterator sharedStepName) map with
  | none => []
  | some ss =>
    textwrapIndent (expander ss.human_readable_steps map)
      (List.replicate indent ' ')

/-- Embeds `human_readable_steps_with_shared_steps_expanded(hrs, map)`:
for each line of the input emit the line plus `"\n"`, and when the line
extracts a non-empty shared-step name, append the expansion of that name
with indent `2 + len(step) - len(step.lstrip())`.  `fuel` bounds the
recursion depth through shared steps (the source has no guard and would
recurse forever on cyclic references); fuel exhaustion appends nothing. -/
def human_readable_steps_with_shared_steps_expanded :
    Nat → List Char → Table → List Char
  | fuel, hrs, map =>
    ((pySplitlines hrs).map (fun step =>
      step ++ '\n' ::
        (let sharedStepName := extract_shared_step_name step
         if sharedStepName = [] then []
         else
           match fuel with
           | 0 => []
           | fuel' + 1 =>
             expand_shared_step
               (fun h m => human_readable_steps_with_shared_steps_expanded fuel' h m)
               sharedStepName map
               (2 + (step.length - (pyLstrip step).length))))).flatten

/-- Embeds `calculate_total_step_count(expanded_human_readable_steps)`:
the number of lines whose extracted shared-step name is empty. -/
def calculate_total_step_count (expanded : List Char) : Nat :=
  ((pySplitlines expanded).filter (fun step =>
    (extract_shared_step_name step).isEmpty)).length

/-- A summary record from a paged list response: the program only reads
its `number` field (`shared_steps[-1]["number"]`, `test_cases[-1]["number"]`). -/
structure StepSummary where
  number : Nat
deriving DecidableEq

/-- The `while True` collection loop shared by `get_full_shared_steps` and
`get_full_test_cases`: request a page at the current minimum-number cursor;
an error response is returned as-is at once; an empty page breaks the loop
returning the accumulated items; otherwise extend the accumulator and
advance the cursor to the last item's number plus one.  `fuel` bounds the
number of iterations of the otherwise unbounded loop. -/
def fetchAllPages (fetchList : Nat → Except String (List StepSummary)) :
    Nat → Nat → List StepSummary → Except String (List StepSummary)
  | 0, _, acc => Except.ok acc
  | fuel + 1, minNumber, acc =>
    match fetchList minNumber with
    | Except.error e => Except.error e
    | Except.ok page =>
      if h : page = [] then Except.ok acc
      else fetchAllPages fetchList fuel ((page.getLast h).number + 1) (acc ++ page)

/-- The per-number fetch loop of both bulk getters: fetch each record in
order; the first error response is returned as-is and nothing fetched so
far is aggregated into a success result. -/
def fetchEach {α : Type} (fetchOne : Nat → Except String α) :
    List Nat → Except String (List α)
  | [] => Except.ok []
  | n :: rest =>
    match fetchOne n with
    | Except.error e => Except.error e
    | Except.ok record =>
      match fetchEach fetchOne rest with
      | Except.error e => Except.error e
      | Except.ok records => Except.ok (record :: records)

/-- Embeds `CustomMagicPodAPIClient.get_full_shared_steps`: paginate the
summary list starting at cursor 1, then fetch each full record by its
number. -/
def get_full_shared_steps
    (fetchList : Nat → Except String (List StepSummary))
    (fetchOne : Nat → Except String SharedStepRec) (fuel : Nat) :
    Except String (List SharedStepRec) :=
  match fetchAllPages fetchList fuel 1 [] with
  | Except.error e => Except.error e
  | Except.ok allSummaries => fetchEach fetchOne (allSummaries.map (fun s => s.number))

/-- A full test-case record: the program reads and rewrites its
`human_readable_steps` field. -/
structure TestCaseRec where
  human_readable_steps : List Char
deriving DecidableEq

/-- Embeds `CustomMagicPodAPIClient.get_full_test_cases`: when explicit
numbers are given only those are fetched; otherwise the same pagination
as for shared steps enumerates all numbers first. -/
def get_full_test_cases
    (fetchList : Nat → Except String (List StepSummary))
    (fetchOne : Nat → Except String TestCaseRec)
    (testCaseNumbers : Option (List Nat)) (fuel : Nat) :
    Except String (List TestCaseRec) :=
  match testCaseNumbers with
  | some numbers => fetchEach fetchOne numbers
  | none =>
    match fetchAllPages fetchList fuel 1 [] with
    | Except.error e => Except.error e
    | Except.ok allSummaries => fetchEach fetchOne (allSummaries.map (fun s => s.number))

/-- Embeds the dict comprehension
`{shared_step["name"]: shared_step for shared_step in shared_steps}`:
later entries overwrite earlier ones with the same name. -/
def build_shared_step_name_map (sharedSteps : List SharedStepRec) : Table :=
  sharedSteps.foldl (fun m ss => fun n => if n = ss.name then some ss else m n)
    (fun _ => none)

/-- One output record of the run: the expanded steps and the derived
`total_step_count` field. -/
structure ProcessedTestCase where
  human_readable_steps : List Char
  total_step_count : Nat
deriving DecidableEq

/-- Observable outcome of `_main`: the process exit code and the JSON
payload printed on success (`none` = nothing printed). -/
structure RunResult where
  exitCode : Nat
  output : Option (List ProcessedTestCase)
deriving DecidableEq

/-- Embeds `_main`: fetch all shared steps (an error logs and exits with
status 1, printing nothing), fetch the test cases (likewise), build the
name map, then expand and count each test case and print the result,
exiting with status 0. -/
def mainRun
    (fetchSharedList : Nat → Except String (List StepSummary))
    (fetchSharedOne : Nat → Except String SharedStepRec)
    (fetchCaseList : Nat → Except String (List StepSummary))
    (fetchCaseOne : Nat → Except String TestCaseRec)
    (testCaseNumbers : Option (List Nat)) (pageFuel expandFuel : Nat) :
    RunResult :=
  match get_full_shared_steps fetchSharedList fetchSharedOne pageFuel with
  | Except.error _ => ⟨1, none⟩
  | Except.ok sharedSteps =>
    match get_full_test_cases fetchCaseList fetchCaseOne testCaseNumbers pageFuel with
    | Except.error _ => ⟨1, none⟩
    | Except.ok testCases =>
      let map := build_shared_step_name_map sharedSteps
      ⟨0, some (testCases.map (fun tc =>
        let expanded := human_readable_steps_with_shared_steps_expanded
          expandFuel tc.human_readable_steps map
        ⟨expanded, calculate_total_step_count expanded⟩))⟩

/-- The cursor chain of the pagination protocol: starting from cursor `c`,
a non-empty page advances the cursor to one past its last item's number.
`PagedAgrees fetch c pages` says the fetch function serves exactly the
non-empty pages `pages` along the cursor chain from `c` and then an empty
page. -/
def PagedAgrees (fetch : Nat → Except String (List StepSummary)) :
    Nat → List (List StepSummary) → Prop
  | c, [] => fetch c = Except.ok []
  | c, p :: ps =>
    p ≠ [] ∧ fetch c = Except.ok p ∧
      PagedAgrees fetch (match p.getLast? with
        | some s => s.number + 1
        | none => c) ps

/-! ### Supporting lemmas about the embedded Python string primitives -/

/-- A clean line: no line-boundary character occurs in it. -/
def CleanLine (l : List Char) : Prop := ∀ c ∈ l, isLineBoundary c = false

/-- The text whose lines are `ls`, each terminated by one `'\n'`. -/
def NormalForm (ls : List (List Char)) : List Char :=
  (ls.map (fun l => l ++ ['\n'])).flatten

set_option maxHeartbeats 1000000 in
lemma splitlinesAux_lf (rest acc : List Char) :
    splitlinesAux ('\n' :: rest) acc = acc.reverse :: splitlinesAux rest [] := by
  simp only [splitlinesAux]
  rw [if_pos (by decide)]

lemma splitlinesAux_not_boundary (c : Char) (rest acc : List Char)
    (h : isLineBoundary c = false) :
    splitlinesAux (c :: rest) acc = splitlinesAux rest (c :: acc) := by
  have hc : ∀ r : List Char, c = '\r' → rest = '\n' :: r → False := by
    intro r he _; subst he; exact absurd h (by decide)
  rw [splitlinesAux.eq_3 acc c rest hc, if_neg (by simp [h])]

lemma splitlinesAux_clean_append :
    ∀ (l : List Char), CleanLine l →
      ∀ (rest acc : List Char),
        splitlinesAux (l ++ '\n' :: rest) acc =
          (acc.reverse ++ l) :: splitlinesAux rest [] := by
  intro l
  induction l with
  | nil => intro _ rest acc; simpa using splitlinesAux_lf rest acc
  | cons c l ih =>
    intro hl rest acc
    have hc : isLineBoundary c = false := hl c (by simp)
    have hl' : CleanLine l := fun d hd => hl d (by simp [hd])
    rw [List.cons_append, splitlinesAux_not_boundary c _ acc hc, ih hl' rest (c :: acc)]
    simp

lemma pySplitlines_normalForm (ls : List (List Char))
    (h : ∀ l ∈ ls, CleanLine l) :
    pySplitlines (NormalForm ls) = ls := by
  induction ls with
  | nil => rfl
  | cons l ls ih =>
    have h1 : CleanLine l := h l (by simp)
    have h2 : ∀ x ∈ ls, CleanLine x := fun x hx => h x (by simp [hx])
    have hne : NormalForm (l :: ls) = l ++ '\n' :: NormalForm ls := by
      simp [NormalForm]
    show splitlinesAux (NormalForm (l :: ls)) [] = l :: ls
    rw [hne, splitlinesAux_clean_append l h1]
    simpa using ih h2

lemma splitlinesAux_eq_nil_imp :
    ∀ (t acc : List Char), splitlinesAux t acc = [] →
      t = [] ∧ acc.isEmpty = true := by
  intro t acc
  induction t, acc using splitlinesAux.induct with
  | case1 acc hacc => intro _; exact ⟨rfl, hacc⟩
  | case2 acc hacc => rw [splitlinesAux.eq_1, if_neg hacc]; simp
  | case3 rest acc ih => rw [splitlinesAux.eq_2]; simp
  | case4 c rest acc hne hb ih => rw [splitlinesAux.eq_3 acc c rest hne, if_pos hb]; simp
  | case5 c rest acc hne hb ih =>
    rw [splitlinesAux.eq_3 acc c rest hne, if_neg hb]
    intro h
    simpa using (ih h).2

lemma pySplitlines_eq_nil_iff (t : List Char) : pySplitlines t = [] ↔ t = [] := by
  constructor
  · intro h; exact (splitlinesAux_eq_nil_imp t [] h).1
  · rintro rfl; rfl

lemma splitlinesAux_clean :
    ∀ (t acc : List Char), (∀ c ∈ acc, isLineBoundary c = false) →
      ∀ l ∈ splitlinesAux t acc, CleanLine l := by
  intro t acc
  induction t, acc using splitlinesAux.induct with
  | case1 acc hacc =>
    intro hc l hl
    rw [splitlinesAux.eq_1, if_pos hacc] at hl
    simp at hl
  | case2 acc hacc =>
    intro hc l hl
    rw [splitlinesAux.eq_1, if_neg hacc] at hl
    simp at hl
    subst hl
    intro c hcm
    exact hc c (List.mem_reverse.mp hcm)
  | case3 rest acc ih =>
    intro hc l hl
    rw [splitlinesAux.eq_2] at hl
    rcases List.mem_cons.mp hl with h | h
    · subst h; intro c hcm; exact hc c (List.mem_reverse.mp hcm)
    · exact ih (by simp) l h
  | case4 c rest acc hne hb ih =>
    intro hc l hl
    rw [splitlinesAux.eq_3 acc c rest hne, if_pos hb] at hl
    rcases List.mem_cons.mp hl with h | h
    · subst h; intro d hd; exact hc d (List.mem_reverse.mp hd)
    · exact ih (by simp) l h
  | case5 c rest acc hne hb ih =>
    intro hc l hl
    rw [splitlinesAux.eq_3 acc c rest hne, if_neg hb] at hl
    refine ih ?_ l hl
    intro d hd
    rcases List.mem_cons.mp hd with h | h
    · subst h; simpa using hb
    · exact hc d h

lemma pySplitlines_clean (t : List Char) : ∀ l ∈ pySplitlines t, CleanLine l :=
  splitlinesAux_clean t [] (by simp)

set_option maxHeartbeats 1000000 in
lemma splitlinesKeependsAux_lf (rest acc : List Char) :
    splitlinesKeependsAux ('\n' :: rest) acc =
      (acc.reverse ++ ['\n']) :: splitlinesKeependsAux rest [] := by
  simp only [splitlinesKeependsAux]
  rw [if_pos (by decide)]

lemma splitlinesKeependsAux_not_boundary (c : Char) (rest acc : List Char)
    (h : isLineBoundary c = false) :
    splitlinesKeependsAux (c :: rest) acc = splitlinesKeependsAux rest (c :: acc) := by
  have hc : ∀ r : List Char, c = '\r' → rest = '\n' :: r → False := by
    intro r he _; subst he; exact absurd h (by decide)
  rw [splitlinesKeependsAux.eq_3 acc c rest hc, if_neg (by simp [h])]

lemma splitlinesKeependsAux_clean_append :
    ∀ (l : List Char), CleanLine l →
      ∀ (rest acc : List Char),
        splitlinesKeependsAux (l ++ '\n' :: rest) acc =
          (acc.reverse ++ l ++ ['\n']) :: splitlinesKeependsAux rest [] := by
  intro l
  induction l with
  | nil => intro _ rest acc; simpa using splitlinesKeependsAux_lf rest acc
  | cons c l ih =>
    intro hl rest acc
    have hc : isLineBoundary c = false := hl c (by simp)
    have hl' : CleanLine l := fun d hd => hl d (by simp [hd])
    rw [List.cons_append, splitlinesKeependsAux_not_boundary c _ acc hc,
      ih hl' rest (c :: acc)]
    simp

lemma pySplitlinesKeepends_normalForm (ls : List (List Char))
    (h : ∀ l ∈ ls, CleanLine l) :
    pySplitlinesKeepends (NormalForm ls) = ls.map (fun l => l ++ ['\n']) := by
  induction ls with
  | nil => rfl
  | cons l ls ih =>
    have h1 : CleanLine l := h l (by simp)
    have h2 : ∀ x ∈ ls, CleanLine x := fun x hx => h x (by simp [hx])
    have hne : NormalForm (l :: ls) = l ++ '\n' :: NormalForm ls := by
      simp [NormalForm]
    show splitlinesKeependsAux (NormalForm (l :: ls)) [] = _
    rw [hne, splitlinesKeependsAux_clean_append l h1]
    simpa using ih h2

lemma pyRstrip_append_space (l : List Char) (c : Char) (hc : isPySpace c = true) :
    pyRstrip (l ++ [c]) = pyRstrip l := by
  simp [pyRstrip, List.dropWhile_cons, hc]

lemma pyStrip_append_lf (l : List Char) :
    pyStrip (l ++ ['\n']) = pyStrip l := by
  show pyRstrip (pyLstrip (l ++ ['\n'])) = pyRstrip (pyLstrip l)
  unfold pyLstrip
  rw [List.dropWhile_append]
  by_cases h : (l.dropWhile isPySpace).isEmpty
  · rw [if_pos h]
    rw [List.isEmpty_iff.mp h]
    decide
  · rw [if_neg h]
    exact pyRstrip_append_space _ _ (by decide)

lemma NormalForm_cons (l : List Char) (ls : List (List Char)) :
    NormalForm (l :: ls) = l ++ '\n' :: NormalForm ls := by
  simp [NormalForm]

lemma NormalForm_append (a b : List (List Char)) :
    NormalForm (a ++ b) = NormalForm a ++ NormalForm b := by
  simp [NormalForm]

lemma NormalForm_flatten (xs : List (List (List Char))) :
    NormalForm xs.flatten = (xs.map NormalForm).flatten := by
  induction xs with
  | nil => rfl
  | cons x xs ih => simp [NormalForm_append, ih]

lemma NormalForm_eq_nil_iff (ls : List (List Char)) :
    NormalForm ls = [] ↔ ls = [] := by
  constructor
  · intro h
    cases ls with
    | nil => rfl
    | cons l ls => rw [NormalForm_cons] at h; simp at h
  · rintro rfl; rfl

lemma NormalForm_getLast (ls : List (List Char)) (h : ls ≠ []) :
    (NormalForm ls).getLast? = some '\n' := by
  induction ls with
  | nil => exact absurd rfl h
  | cons l ls ih =>
    rw [NormalForm_cons]
    cases ls with
    | nil =>
      show (l ++ '\n' :: NormalForm []).getLast? = some '\n'
      simp [NormalForm]
    | cons l2 ls2 =>
      have h2 : NormalForm (l2 :: ls2) ≠ [] := by
        simp [NormalForm_eq_nil_iff]
      have : l ++ '\n' :: NormalForm (l2 :: ls2) = (l ++ ['\n']) ++ NormalForm (l2 :: ls2) := by
        simp
      rw [this, List.getLast?_append_of_ne_nil _ h2]
      exact ih (by simp)

lemma mem_NormalForm (c : Char) (ls : List (List Char)) (h : c ∈ NormalForm ls) :
    c = '\n' ∨ ∃ l ∈ ls, c ∈ l := by
  unfold NormalForm at h
  rw [List.mem_flatten] at h
  obtain ⟨piece, hp, hc⟩ := h
  rw [List.mem_map] at hp
  obtain ⟨l, hl, rfl⟩ := hp
  rcases List.mem_append.mp hc with h | h
  · exact Or.inr ⟨l, hl, h⟩
  · simp at h; exact Or.inl h

lemma textwrapIndent_normalForm (ls : List (List Char)) (pfx : List Char)
    (h : ∀ l ∈ ls, CleanLine l) :
    textwrapIndent (NormalForm ls) pfx =
      NormalForm (ls.map (fun l => if pyStrip l = [] then l else pfx ++ l)) := by
  unfold textwrapIndent
  rw [pySplitlinesKeepends_normalForm ls h, List.map_map]
  unfold NormalForm
  rw [List.map_map]
  congr 1
  apply List.map_congr_left
  intro l _
  by_cases hs : pyStrip l = []
  · simp [Function.comp, pyStrip_append_lf, hs]
  · simp [Function.comp, pyStrip_append_lf, hs]

/-! ### The line decomposition of the expansion function -/

/-- The list of output lines of
`human_readable_steps_with_shared_steps_expanded`: each input line is
followed by the lines of its shared-step expansion, of which the
non-whitespace ones carry the indent as a prefix (the whitespace-only
ones are left alone by `textwrap.indent`).  `expand_eq_normalForm` below
proves that the expansion function is exactly the `'\n'`-joining of these
lines. -/
def expandLines : Nat → List Char → Table → List (List Char)
  | fuel, hrs, map =>
    ((pySplitlines hrs).map (fun step =>
      step ::
        (let sharedStepName := extract_shared_step_name step
         if sharedStepName = [] then []
         else
           match fuel with
           | 0 => []
           | fuel' + 1 =>
             match resolveCandidates (shared_step_name_candidate_iterator sharedStepName) map with
             | none => []
             | some ss =>
               (expandLines fuel' ss.human_readable_steps map).map
                 (fun l =>
                   if pyStrip l = [] then l
                   else List.replicate (2 + (step.length - (pyLstrip step).length)) ' ' ++ l)))).flatten

lemma expandLines_clean :
    ∀ (fuel : Nat) (hrs : List Char) (map : Table),
      ∀ l ∈ expandLines fuel hrs map, CleanLine l := by
  intro fuel
  induction fuel with
  | zero =>
    intro hrs map l hl
    rw [expandLines] at hl
    rw [List.mem_flatten] at hl
    obtain ⟨grp, hg, hlg⟩ := hl
    rw [List.mem_map] at hg
    obtain ⟨step, hstep, rfl⟩ := hg
    rcases List.mem_cons.mp hlg with h | h
    · exact h ▸ pySplitlines_clean hrs step hstep
    · simp only at h
      split at h <;> simp at h
  | succ fuel ih =>
    intro hrs map l hl
    rw [expandLines] at hl
    rw [List.mem_flatten] at hl
    obtain ⟨grp, hg, hlg⟩ := hl
    rw [List.mem_map] at hg
    obtain ⟨step, hstep, rfl⟩ := hg
    rcases List.mem_cons.mp hlg with h | h
    · exact h ▸ pySplitlines_clean hrs step hstep
    · simp only at h
      split at h
      · simp at h
      · split at h
        · simp at h
        next ss hss =>
          rw [List.mem_map] at h
          obtain ⟨l0, hl0, rfl⟩ := h
          have hcl : CleanLine l0 := ih ss.human_readable_steps map l0 hl0
          by_cases hs : pyStrip l0 = []
          · simpa [hs] using hcl
          · rw [if_neg hs]
            intro c hc
            rcases List.mem_append.mp hc with h | h
            · have : c = ' ' := List.eq_of_mem_replicate h
              subst this; decide
            · exact hcl c h

lemma expand_eq_normalForm :
    ∀ (fuel : Nat) (hrs : List Char) (map : Table),
      human_readable_steps_with_shared_steps_expanded fuel hrs map =
        NormalForm (expandLines fuel hrs map) := by
  intro fuel
  induction fuel with
  | zero =>
    intro hrs map
    rw [human_readable_steps_with_shared_steps_expanded, expandLines,
      NormalForm_flatten, List.map_map]
    congr 1
    apply List.map_congr_left
    intro step _
    simp only [Function.comp]
    rw [NormalForm_cons]
    by_cases hname : extract_shared_step_name step = []
    · simp [hname, NormalForm]
    · simp [hname, NormalForm]
  | succ fuel ih =>
    intro hrs map
    rw [human_readable_steps_with_shared_steps_expanded, expandLines,
      NormalForm_flatten, List.map_map]
    congr 1
    apply List.map_congr_left
    intro step _
    simp only [Function.comp]
    rw [NormalForm_cons]
    by_cases hname : extract_shared_step_name step = []
    · simp [hname, NormalForm]
    · rw [if_neg hname, if_neg hname]
      congr 1
      congr 1
      rw [expand_shared_step]
      rcases hres : resolveCandidates
          (shared_step_name_candidate_iterator (extract_shared_step_name step)) map with
        _ | ss
      · simp [NormalForm]
      · simp only
        rw [ih ss.human_readable_steps map,
          textwrapIndent_normalForm _ _ (expandLines_clean fuel ss.human_readable_steps map)]

lemma expandLines_eq_nil_iff (fuel : Nat) (hrs : List Char) (map : Table) :
    expandLines fuel hrs map = [] ↔ hrs = [] := by
  rw [expandLines, List.flatten_eq_nil_iff]
  constructor
  · intro h
    rw [← pySplitlines_eq_nil_iff]
    by_contra hne
    obtain ⟨step, hstep⟩ := List.exists_mem_of_ne_nil _ hne
    have := h _ (List.mem_map_of_mem _ hstep)
    simp at this
  · rintro rfl
    intro l hl
    simp [pySplitlines, splitlinesAux] at hl

lemma expand_eq_nil_iff (fuel : Nat) (hrs : List Char) (map : Table) :
    human_readable_steps_with_shared_steps_expanded fuel hrs map = [] ↔ hrs = [] := by
  rw [expand_eq_normalForm, NormalForm_eq_nil_iff, expandLines_eq_nil_iff]

lemma expand_getLast_lf (fuel : Nat) (hrs : List Char) (map : Table) (h : hrs ≠ []) :
    (human_readable_steps_with_shared_steps_expanded fuel hrs map).getLast? =
      some '\n' := by
  rw [expand_eq_normalForm]
  apply NormalForm_getLast
  intro he
  exact h ((expandLines_eq_nil_iff fuel hrs map).mp he)

lemma expand_no_cr (fuel : Nat) (hrs : List Char) (map : Table) :
    '\r' ∉ human_readable_steps_with_shared_steps_expanded fuel hrs map := by
  rw [expand_eq_normalForm]
  intro h
  rcases mem_NormalForm _ _ h with h | ⟨l, hl, hmem⟩
  · exact absurd h (by decide)
  · have := expandLines_clean fuel hrs map l hl '\r' hmem
    exact absurd this (by decide)

lemma expand_lines_eq (fuel : Nat) (hrs : List Char) (map : Table) :
    pySplitlines (human_readable_steps_with_shared_steps_expanded fuel hrs map) =
      expandLines fuel hrs map := by
  rw [expand_eq_normalForm]
  exact pySplitlines_normalForm _ (expandLines_clean fuel hrs map)

lemma expandLines_refFree (fuel : Nat) (hrs : List Char) (map : Table)
    (h : ∀ l ∈ pySplitlines hrs, extract_shared_step_name l = []) :
    expandLines fuel hrs map = pySplitlines hrs := by
  rw [expandLines]
  revert h
  generalize pySplitlines hrs = lines
  intro h
  induction lines with
  | nil => rfl
  | cons s rest ih =>
    rw [List.map_cons, List.flatten_cons]
    have hs : extract_shared_step_name s = [] := h s (by simp)
    simp only [hs]
    rw [ih (fun l hl => h l (by simp [hl]))]
    simp

lemma expand_refFree (fuel : Nat) (hrs : List Char) (map : Table)
    (h : ∀ l ∈ pySplitlines hrs, extract_shared_step_name l = []) :
    human_readable_steps_with_shared_steps_expanded fuel hrs map =
      NormalForm (pySplitlines hrs) := by
  rw [expand_eq_normalForm, expandLines_refFree fuel hrs map h]

lemma resolveCandidates_none (l : List (List Char)) (map : Table)
    (h : ∀ n, map n = none) : resolveCandidates l map = none := by
  induction l with
  | nil => rfl
  | cons c rest ih => rw [resolveCandidates, h c]; exact ih

lemma expandLines_noneTable (fuel : Nat) (hrs : List Char) (map : Table)
    (h : ∀ n, map n = none) : expandLines fuel hrs map = pySplitlines hrs := by
  rw [expandLines]
  generalize pySplitlines hrs = lines
  induction lines with
  | nil => rfl
  | cons s rest ih =>
    rw [List.map_cons, List.flatten_cons, ih]
    by_cases hs : extract_shared_step_name s = []
    · simp [hs]
    · simp only [hs, if_neg hs]
      cases fuel with
      | zero => simp
      | succ fuel' =>
        rw [resolveCandidates_none _ map h]
        simp

lemma expandLines_succ (fuel : Nat) (hrs : List Char) (map : Table) :
    expandLines (fuel + 1) hrs map =
      ((pySplitlines hrs).map (fun step =>
        step ::
          (if extract_shared_step_name step = [] then []
           else
             match resolveCandidates
                 (shared_step_name_candidate_iterator (extract_shared_step_name step))
                 map with
             | none => []
             | some ss =>
               (expandLines fuel ss.human_readable_steps map).map
                 (fun l =>
                   if pyStrip l = [] then l
                   else List.replicate (2 + (step.length - (pyLstrip step).length)) ' '
                     ++ l)))).flatten := by
  rw [expandLines]

lemma expandLines_single_ref (fuel : Nat) (inp name : List Char) (map : Table)
    (ss : SharedStepRec)
    (hsplit : pySplitlines inp = [inp])
    (hname : extract_shared_step_name inp = name)
    (hne : name ≠ [])
    (hres : resolveCandidates (shared_step_name_candidate_iterator name) map = some ss) :
    expandLines (fuel + 1) inp map =
      inp :: (expandLines fuel ss.human_readable_steps map).map
        (fun l => if pyStrip l = [] then l
          else List.replicate (2 + (inp.length - (pyLstrip inp).length)) ' ' ++ l) := by
  rw [expandLines_succ, hsplit]
  simp only [List.map_cons, List.map_nil, List.flatten_cons, List.flatten_nil,
    List.append_nil]
  rw [hname, if_neg hne, hres]

/-! ### Concrete fixtures used by the claims -/

/-- Table holding both a `"Login"` and a `"Login (2)"` group. -/
def bothLoginsTable : Table := fun n =>
  if n = ("Login (2)".toList) then some ⟨"Login (2)".toList, "L2".toList⟩
  else if n = ("Login".toList) then some ⟨"Login".toList, "L".toList⟩
  else none

/-- The `"Login"` group of the end-to-end scenario. -/
def loginSharedStep : SharedStepRec :=
  ⟨"Login".toList, "Enter username\nEnter password".toList⟩

/-- Table of the end-to-end scenario: only the `"Login"` group. -/
def loginOnlyTable : Table := fun n =>
  if n = ("Login".toList) then some loginSharedStep else none

/-- A group whose steps contain a whitespace-only line. -/
def blankLineTable : Table := fun n =>
  if n = ("G".toList) then some ⟨"G".toList, "A\n\nB".toList⟩ else none

/-! ### The claims -/

/-- C1: the spec (and the function's own docstring) state that candidate
generation strips one trailing parenthesized group at a time, so that
`"Login (2) (email: xxx.com, password: 123456)"` yields the full string,
then `"Login (2)"`, then `"Login"`, and resolution against a table holding
both `"Login"` and `"Login (2)"` picks `"Login (2)"`.  The code's regex
`\(.*\)$` is greedy, so a single substitution deletes everything from the
first `(` to the final `)`: the iterator skips `"Login (2)"` entirely and
resolution returns the bare `"Login"` group.  This theorem evaluates the
code at the failing input. -/
theorem C1_greedy_candidate_iterator :
    shared_step_name_candidate_iterator
        ("Login (2) (email: xxx.com, password: 123456)".toList) =
      [("Login (2) (email: xxx.com, password: 123456)".toList), ("Login".toList)] ∧
    ("Login (2)".toList) ∉
      shared_step_name_candidate_iterator
        ("Login (2) (email: xxx.com, password: 123456)".toList) ∧
    resolveCandidates
        (shared_step_name_candidate_iterator ("Login (2) (email: a@b.com)".toList))
        bothLoginsTable =
      some ⟨"Login".toList, "L".toList⟩ := by
  refine ⟨by decide, by decide, by decide⟩

/-- C2: for every lookup table whose only entry is a group named
`"Login"`, resolving the reference text `"Login (2)"` returns that group:
the trailing `"(2)"` is stripped and the bare name is found. -/
theorem C2_fallback_resolution (map : Table) (g : SharedStepRec)
    (h1 : map ("Login".toList) = some g)
    (h2 : ∀ n, n ≠ ("Login".toList) → map n = none) :
    resolveCandidates (shared_step_name_candidate_iterator ("Login (2)".toList)) map =
      some g := by
  have e : shared_step_name_candidate_iterator ("Login (2)".toList) =
      [("Login (2)".toList), ("Login".toList)] := by decide
  rw [e]
  have n1 : map ("Login (2)".toList) = none := h2 _ (by decide)
  rw [resolveCandidates, n1, resolveCandidates, h1]

/-- Witness for C2 at a concrete single-entry table. -/
theorem C2_fallback_resolution_witness :
    resolveCandidates
        (shared_step_name_candidate_iterator ("Login (2)".toList)) loginOnlyTable =
      some loginSharedStep :=
  C2_fallback_resolution loginOnlyTable loginSharedStep rfl
    (fun _ hn => if_neg hn)

/-- C3 counterexample: the claim says expansion is the identity on
reference-free input, but the output of the expansion function
re-terminates every line with `'\n'`: on the reference-free one-line
input `"a"` (which does not end with a newline) the output is `"a\n"`,
not `"a"`. -/
theorem C3_identity_counterexample :
    (∀ l ∈ pySplitlines ("a".toList), extract_shared_step_name l = []) ∧
    human_readable_steps_with_shared_steps_expanded 1 ("a".toList) (fun _ => none) ≠
      ("a".toList) := by
  refine ⟨by decide, by decide⟩

/-- C3 (amended): on reference-free input the expansion function returns
the newline-normalization of its input — its lines, each re-terminated by
exactly one `'\n'` — and it is the identity precisely on inputs that are
already in that normalized form. -/
theorem C3_identity_up_to_newline_normalization
    (fuel : Nat) (hrs : List Char) (map : Table)
    (h : ∀ l ∈ pySplitlines hrs, extract_shared_step_name l = []) :
    human_readable_steps_with_shared_steps_expanded fuel hrs map =
      NormalForm (pySplitlines hrs) ∧
    (hrs = NormalForm (pySplitlines hrs) →
      human_readable_steps_with_shared_steps_expanded fuel hrs map = hrs) := by
  refine ⟨expand_refFree fuel hrs map h, fun hn => ?_⟩
  rw [expand_refFree fuel hrs map h, ← hn]

/-- Witness for C3 (amended) on a concrete normalized two-line block. -/
theorem C3_identity_witness :
    human_readable_steps_with_shared_steps_expanded 3 ("x\ny\n".toList)
        (fun _ => none) =
      ("x\ny\n".toList) :=
  (C3_identity_up_to_newline_normalization 3 ("x\ny\n".toList) (fun _ => none)
    (by decide)).2 (by decide)

/-- C4 counterexample: the claim's expected expanded block lacks the
final `'\n'` the code always emits — the actual output is the expected
text plus a trailing newline, so the stated equality fails. -/
theorem C4_missing_trailing_newline :
    human_readable_steps_with_shared_steps_expanded 1
        ("Shared step: Login\nClick submit".toList) loginOnlyTable ≠
      ("Shared step: Login\n  Enter username\n  Enter password\nClick submit".toList) := by
  decide

/-- C4 (amended): the end-to-end scenario produces the expected expanded
block terminated by a final `'\n'`, and its derived total step count is 3
(for every recursion budget, since the referenced group is
reference-free). -/
theorem C4_end_to_end (fuel : Nat) :
    human_readable_steps_with_shared_steps_expanded (fuel + 1)
        ("Shared step: Login\nClick submit".toList) loginOnlyTable =
      ("Shared step: Login\n  Enter username\n  Enter password\nClick submit\n".toList) ∧
    calculate_total_step_count
        ("Shared step: Login\n  Enter username\n  Enter password\nClick submit\n".toList)
      = 3 := by
  refine ⟨?_, by decide⟩
  have hinner : expandLines fuel ("Enter username\nEnter password".toList)
      loginOnlyTable = [("Enter username".toList), ("Enter password".toList)] := by
    rw [expandLines_refFree _ _ _ (by decide)]
    decide
  rw [expand_eq_normalForm, expandLines_succ]
  rw [show pySplitlines ("Shared step: Login\nClick submit".toList) =
      [("Shared step: Login".toList), ("Click submit".toList)] from by decide]
  simp only [List.map_cons, List.map_nil]
  rw [show extract_shared_step_name ("Shared step: Login".toList) =
      (" Login".toList) from by decide]
  rw [if_neg (by decide : ¬((" Login".toList) = ([] : List Char)))]
  rw [show resolveCandidates
      (shared_step_name_candidate_iterator (" Login".toList)) loginOnlyTable =
      some loginSharedStep from by decide]
  simp only []
  rw [show loginSharedStep.human_readable_steps =
      ("Enter username\nEnter password".toList) from rfl]
  rw [hinner]
  rw [show extract_shared_step_name ("Click submit".toList) = ([] : List Char)
      from by decide]
  rw [if_pos rfl]
  decide

/-- C5 counterexample: with an empty table the input
`"Shared step: Ghost\nDo thing"` expands to the same text plus a trailing
newline (so it is not literally unchanged), and its total step count is
1, not the claimed 2: the unresolved reference line still extracts a
non-empty name and is excluded from the count. -/
theorem C5_unresolved_counterexample :
    human_readable_steps_with_shared_steps_expanded 1
        ("Shared step: Ghost\nDo thing".toList) (fun _ => none) =
      ("Shared step: Ghost\nDo thing\n".toList) ∧
    calculate_total_step_count ("Shared step: Ghost\nDo thing\n".toList) = 1 ∧
    ("Shared step: Ghost\nDo thing\n".toList) ≠
      ("Shared step: Ghost\nDo thing".toList) := by
  refine ⟨by decide, by decide, by decide⟩

/-- C5 (amended): an unresolved reference is not an error — whenever the
candidate resolution finds no group, `expand_shared_step` appends nothing
at all; in the concrete scenario the output is the input with only the
terminating newline added by line normalization, and its total step count
is 1 (the reference line itself is excluded from the count because it
extracts a non-empty name even when unresolved). -/
theorem C5_unresolved_reference :
    (∀ (expander : List Char → Table → List Char) (name : List Char) (map : Table)
        (indent : Nat),
        resolveCandidates (shared_step_name_candidate_iterator name) map = none →
        expand_shared_step expander name map indent = []) ∧
    (∀ fuel : Nat,
        human_readable_steps_with_shared_steps_expanded fuel
            ("Shared step: Ghost\nDo thing".toList) (fun _ => none) =
          ("Shared step: Ghost\nDo thing\n".toList) ∧
        calculate_total_step_count ("Shared step: Ghost\nDo thing\n".toList) = 1) := by
  constructor
  · intro expander name map indent h
    rw [expand_shared_step, h]
  · intro fuel
    refine ⟨?_, by decide⟩
    rw [expand_eq_normalForm, expandLines_noneTable fuel _ _ (fun _ => rfl)]
    decide

/-- Witness for C5 (amended) at concrete inputs. -/
theorem C5_unresolved_reference_witness :
    expand_shared_step (fun _ _ => []) ("Ghost".toList) (fun _ => none) 2 = [] ∧
    human_readable_steps_with_shared_steps_expanded 4
        ("Shared step: Ghost\nDo thing".toList) (fun _ => none) =
      ("Shared step: Ghost\nDo thing\n".toList) :=
  ⟨C5_unresolved_reference.1 _ _ _ 2 (by decide),
   (C5_unresolved_reference.2 4).1⟩

/-- C6 counterexample: `textwrap.indent` leaves whitespace-only lines
unprefixed, so not every line of the expanded result receives the
`2 + leading-whitespace` spaces: expanding a group whose steps are
`"A\n\nB"` leaves the middle blank line without the two-space prefix the
claim requires. -/
theorem C6_blank_line_counterexample :
    human_readable_steps_with_shared_steps_expanded 1 ("Shared step: G".toList)
        blankLineTable =
      ("Shared step: G\n  A\n\n  B\n".toList) ∧
    human_readable_steps_with_shared_steps_expanded 1 ("Shared step: G".toList)
        blankLineTable ≠
      ("Shared step: G\n  A\n  \n  B\n".toList) := by
  refine ⟨by decide, by decide⟩

/-- C6 (amended): when a reference line resolves to a group, the lines
appended after it are exactly the lines of the recursively expanded
group, where every line containing a non-whitespace character is prefixed
with exactly `2 + (the reference line's leading-whitespace length)`
spaces and whitespace-only lines are left unprefixed. -/
theorem C6_indentation_invariant (fuel : Nat) (inp name : List Char) (map : Table)
    (ss : SharedStepRec)
    (hsplit : pySplitlines inp = [inp])
    (hname : extract_shared_step_name inp = name)
    (hne : name ≠ [])
    (hres : resolveCandidates (shared_step_name_candidate_iterator name) map = some ss) :
    human_readable_steps_with_shared_steps_expanded (fuel + 1) inp map =
      NormalForm (inp ::
        (expandLines fuel ss.human_readable_steps map).map
          (fun l => if pyStrip l = [] then l
            else List.replicate (2 + (inp.length - (pyLstrip inp).length)) ' ' ++ l)) := by
  rw [expand_eq_normalForm,
    expandLines_single_ref fuel inp name map ss hsplit hname hne hres]

/-- Witness for C6 (amended) at the blank-line fixture. -/
theorem C6_indentation_invariant_witness :
    human_readable_steps_with_shared_steps_expanded 1 ("Shared step: G".toList)
        blankLineTable =
      NormalForm (("Shared step: G".toList) ::
        (expandLines 0 ("A\n\nB".toList) blankLineTable).map
          (fun l => if pyStrip l = [] then l
            else List.replicate
              (2 + (("Shared step: G".toList).length -
                (pyLstrip ("Shared step: G".toList)).length)) ' ' ++ l)) :=
  C6_indentation_invariant 0 ("Shared step: G".toList) (" G".toList) blankLineTable
    ⟨"G".toList, "A\n\nB".toList⟩ (by decide) (by decide) (by decide) (by decide)

lemma length_filter_complement {α : Type} (p : α → Bool) (l : List α) :
    (l.filter p).length + (l.filter (fun a => !p a)).length = l.length := by
  induction l with
  | nil => rfl
  | cons a l ih =>
    by_cases h : p a = true
    · simp only [List.filter_cons, h, Bool.not_true, if_pos, if_neg, List.length_cons]
      simp [h]
      omega
    · simp only [List.filter_cons, h]
      simp [h]
      omega

/-- C7: the step counter counts exactly the lines whose extracted
shared-step name is empty: together with the lines extracting a non-empty
name they account for every line, and on a block with no reference line
the count equals the total line count. -/
theorem C7_step_counter_counts_leaves (expanded : List Char) :
    calculate_total_step_count expanded +
        ((pySplitlines expanded).filter
          (fun step => !(extract_shared_step_name step).isEmpty)).length =
      (pySplitlines expanded).length ∧
    ((∀ l ∈ pySplitlines expanded, extract_shared_step_name l = []) →
      calculate_total_step_count expanded = (pySplitlines expanded).length) := by
  constructor
  · exact length_filter_complement
      (fun step => (extract_shared_step_name step).isEmpty) (pySplitlines expanded)
  · intro h
    rw [calculate_total_step_count, List.filter_eq_self.mpr ?_]
    intro a ha
    simp [h a ha]

/-- Witness for C7 on a concrete reference-free block. -/
theorem C7_step_counter_witness :
    calculate_total_step_count ("a\nb".toList) = (pySplitlines ("a\nb".toList)).length :=
  (C7_step_counter_counts_leaves ("a\nb".toList)).2 (by decide)

lemma fetchAllPages_agrees :
    ∀ (ps : List (List StepSummary)) (fetch : Nat → Except String (List StepSummary))
      (c : Nat) (acc : List StepSummary) (fuel : Nat),
      PagedAgrees fetch c ps → ps.length < fuel →
      fetchAllPages fetch fuel c acc = Except.ok (acc ++ ps.flatten) := by
  intro ps
  induction ps with
  | nil =>
    intro fetch c acc fuel h hf
    cases fuel with
    | zero => omega
    | succ f =>
      rw [fetchAllPages, h]
      simp
  | cons p ps ih =>
    intro fetch c acc fuel h hf
    obtain ⟨hp, hf0, hrest⟩ := h
    cases fuel with
    | zero => simp at hf
    | succ f =>
      rw [fetchAllPages, hf0]
      simp only []
      rw [dif_neg hp]
      have hc : (p.getLast hp).number + 1 =
          (match p.getLast? with
            | some s => s.number + 1
            | none => c) := by
        rw [List.getLast?_eq_getLast p hp]
      rw [ih fetch _ (acc ++ p) f (by rw [hc]; exact hrest)
        (by simp only [List.length_cons] at hf; omega)]
      simp

/-- C8: the pagination protocol of the collection loops: if the fetch
function serves the non-empty pages `ps` along the cursor chain that
starts at 1 and advances to one past each page's last item number, and
then an empty page, the loop accumulates exactly the pages in order and
terminates at the empty page (given fuel exceeding the page count). -/
theorem C8_pagination_protocol
    (fetch : Nat → Except String (List StepSummary))
    (ps : List (List StepSummary)) (fuel : Nat)
    (hagree : PagedAgrees fetch 1 ps) (hfuel : ps.length < fuel) :
    fetchAllPages fetch fuel 1 [] = Except.ok ps.flatten := by
  simpa using fetchAllPages_agrees ps fetch 1 [] fuel hagree hfuel

/-- A fetch function serving two pages and then an empty page. -/
def c8Fetch : Nat → Except String (List StepSummary) := fun c =>
  if c = 1 then Except.ok [⟨1⟩, ⟨2⟩]
  else if c = 3 then Except.ok [⟨5⟩]
  else Except.ok []

/-- Witness for C8 at the concrete two-page fetch function. -/
theorem C8_pagination_protocol_witness :
    fetchAllPages c8Fetch 3 1 [] = Except.ok [⟨1⟩, ⟨2⟩, ⟨5⟩] :=
  C8_pagination_protocol c8Fetch [[⟨1⟩, ⟨2⟩], [⟨5⟩]] 3
    ⟨by decide, rfl, by decide, rfl, rfl⟩ (by decide)

/-- C9: a failed fetch aborts immediately with no partial result: an
error page response is returned as-is by the pagination loop, the first
error among the per-record fetches is returned by the record loop with no
aggregation of the previously fetched records, and `_main` reacts to an
error result of either bulk getter by exiting with status 1 and printing
nothing. -/
theorem C9_fetch_error_aborts :
    (∀ (fetchList : Nat → Except String (List StepSummary)) (fuel c : Nat)
        (acc : List StepSummary) (e : String),
        fetchList c = Except.error e →
        fetchAllPages fetchList (fuel + 1) c acc = Except.error e) ∧
    (∀ (α : Type) (fetchOne : Nat → Except String α) (pre : List Nat) (n : Nat)
        (rest : List Nat) (e : String),
        (∀ m ∈ pre, ∃ r, fetchOne m = Except.ok r) →
        fetchOne n = Except.error e →
        fetchEach fetchOne (pre ++ n :: rest) = Except.error e) ∧
    (∀ (fsl : Nat → Except String (List StepSummary))
        (fso : Nat → Except String SharedStepRec)
        (fcl : Nat → Except String (List StepSummary))
        (fco : Nat → Except String TestCaseRec)
        (nums : Option (List Nat)) (pageFuel expandFuel : Nat) (e : String),
        get_full_shared_steps fsl fso pageFuel = Except.error e →
        mainRun fsl fso fcl fco nums pageFuel expandFuel = ⟨1, none⟩) ∧
    (∀ (fsl : Nat → Except String (List StepSummary))
        (fso : Nat → Except String SharedStepRec)
        (fcl : Nat → Except String (List StepSummary))
        (fco : Nat → Except String TestCaseRec)
        (nums : Option (List Nat)) (pageFuel expandFuel : Nat)
        (ss : List SharedStepRec) (e : String),
        get_full_shared_steps fsl fso pageFuel = Except.ok ss →
        get_full_test_cases fcl fco nums pageFuel = Except.error e →
        mainRun fsl fso fcl fco nums pageFuel expandFuel = ⟨1, none⟩) := by
  refine ⟨?_, ?_, ?_, ?_⟩
  · intro fetchList fuel c acc e h
    rw [fetchAllPages, h]
  · intro α fetchOne pre
    induction pre with
    | nil =>
      intro n rest e _ h
      rw [List.nil_append, fetchEach, h]
    | cons m pre ih =>
      intro n rest e hok h
      obtain ⟨r, hr⟩ := hok m (by simp)
      rw [List.cons_append, fetchEach, hr]
      simp only []
      rw [ih n rest e (fun x hx => hok x (by simp [hx])) h]
  · intro fsl fso fcl fco nums pageFuel expandFuel e h
    rw [mainRun, h]
  · intro fsl fso fcl fco nums pageFuel expandFuel ss e h1 h2
    rw [mainRun, h1, h2]

/-- A fetch function whose very first page request fails. -/
def c9BadFetch : Nat → Except String (List StepSummary) := fun _ =>
  Except.error "boom"

/-- Witness for C9 at concrete failing fetch functions. -/
theorem C9_fetch_error_aborts_witness :
    fetchAllPages c9BadFetch 1 1 [] = Except.error "boom" ∧
    fetchEach (fun _ => (Except.error "bad" : Except String SharedStepRec))
        ([] ++ 7 :: []) = Except.error "bad" ∧
    mainRun c9BadFetch (fun _ => Except.error "no") (fun _ => Except.ok [])
        (fun _ => Except.ok ⟨[]⟩) none 1 1 = ⟨1, none⟩ :=
  ⟨C9_fetch_error_aborts.1 c9BadFetch 0 1 [] "boom" rfl,
   C9_fetch_error_aborts.2.1 SharedStepRec _ [] 7 [] "bad"
     (fun m hm => absurd hm (List.not_mem_nil m)) rfl,
   C9_fetch_error_aborts.2.2.1 c9BadFetch _ _ _ none 1 1 "boom" rfl⟩

/-- C10 counterexample: the empty input does not end with a newline and
is returned byte-for-byte unchanged (the output is empty), refuting the
claim's "never returned unchanged" for that case. -/
theorem C10_empty_input_counterexample :
    human_readable_steps_with_shared_steps_expanded 1 ([] : List Char)
        (fun _ => none) = ([] : List Char) ∧
    ([] : List Char).getLast? ≠ some '\n' := by
  refine ⟨by decide, by decide⟩

/-- C10 (amended): for every input and table the expansion output is the
concatenation of its own lines each followed by exactly one `'\n'`; it is
empty exactly when the input is empty, otherwise it ends with `'\n'`; a
nonempty input that does not end with a newline is never returned
unchanged; and no carriage return survives expansion. -/
theorem C10_newline_normalization (fuel : Nat) (hrs : List Char) (map : Table) :
    (human_readable_steps_with_shared_steps_expanded fuel hrs map =
      NormalForm (pySplitlines
        (human_readable_steps_with_shared_steps_expanded fuel hrs map))) ∧
    (human_readable_steps_with_shared_steps_expanded fuel hrs map = [] ↔ hrs = []) ∧
    (hrs ≠ [] →
      (human_readable_steps_with_shared_steps_expanded fuel hrs map).getLast? =
        some '\n') ∧
    (hrs ≠ [] → hrs.getLast? ≠ some '\n' →
      human_readable_steps_with_shared_steps_expanded fuel hrs map ≠ hrs) ∧
    ('\r' ∉ human_readable_steps_with_shared_steps_expanded fuel hrs map) := by
  refine ⟨?_, expand_eq_nil_iff fuel hrs map, expand_getLast_lf fuel hrs map, ?_,
    expand_no_cr fuel hrs map⟩
  · rw [expand_lines_eq]
    exact expand_eq_normalForm fuel hrs map
  · intro h1 h2 he
    apply h2
    rw [← he]
    exact expand_getLast_lf fuel hrs map h1

/-- Witness for C10 (amended) at a concrete one-line input. -/
theorem C10_newline_normalization_witness :
    (human_readable_steps_with_shared_steps_expanded 2 ("a".toList)
        (fun _ => none)).getLast? = some '\n' ∧
    human_readable_steps_with_shared_steps_expanded 2 ("a".toList)
        (fun _ => none) ≠ ("a".toList) :=
  ⟨(C10_newline_normalization 2 ("a".toList) (fun _ => none)).2.2.1 (by decide),
   (C10_newline_normalization 2 ("a".toList) (fun _ => none)).2.2.2.1 (by decide)
     (by decide)⟩

end MagicPod
